import Mathlib

/-!
Verification of the path-tracing renderer core: a shallow embedding of the
vector/ray primitives, the material layer, the axis-aligned rectangle
geometry, the scene aggregate, the recursive integrator, the pixel writer
and the render loop, with theorems checking the specified behaviour.

Scalars are embedded as exact rationals (`ℚ`) for the geometry and the
integrator, and as reals (`ℝ`) where square roots and trigonometry are
involved (gamma correction, the unit-sphere sample).  The ray-parameter
upper bound `+infinity` is embedded as `⊤ : WithTop ℚ`.
-/

/-- Modelled from the spec: `vec3` (vec3.h is not in src/) — triple of
scalars with componentwise arithmetic; `Point3` and `Color` reuse it. -/
structure vec3 (α : Type) where
  x : α
  y : α
  z : α
deriving DecidableEq, Repr

instance {α} [Add α] : Add (vec3 α) :=
  ⟨fun a b => ⟨a.x + b.x, a.y + b.y, a.z + b.z⟩⟩

instance {α} [Mul α] : Mul (vec3 α) :=
  ⟨fun a b => ⟨a.x * b.x, a.y * b.y, a.z * b.z⟩⟩

instance {α} [Mul α] : SMul α (vec3 α) :=
  ⟨fun s v => ⟨s * v.x, s * v.y, s * v.z⟩⟩

/-- Modelled from the spec: `vec3::length_squared` (vec3.h is not in src/). -/
def vec3.length_squared {α} [Mul α] [Add α] (v : vec3 α) : α :=
  v.x * v.x + v.y * v.y + v.z * v.z

/-- Modelled from the spec: `ray` (ray.h is not in src/) — origin plus
direction, not required to be unit length. -/
structure ray (α : Type) where
  orig : vec3 α
  dir : vec3 α
deriving DecidableEq, Repr

/-- Modelled from the spec: `ray::at`, the point at parameter t:
origin + t·direction. -/
def ray.at {α} [Mul α] [Add α] (r : ray α) (t : α) : vec3 α :=
  r.orig + t • r.dir

/-- The closed material hierarchy of material.h: `lambertian` carries an
albedo, `diffuse_light` carries an emission color. -/
inductive material (α : Type) where
  | lambertian (albedo : vec3 α)
  | diffuse_light (emit_color : vec3 α)
deriving DecidableEq, Repr

/-- `material::emitted` — `diffuse_light` overrides it to return its fixed
emission color; `lambertian` inherits the base-class default, black. -/
def material.emitted {α} [OfNat α 0] : material α → vec3 α
  | .diffuse_light c => c
  | .lambertian _ => ⟨0, 0, 0⟩

/-- Modelled from the spec: `hit_record` (hittable.h is not in src/) —
point, normal, material and ray parameter of one intersection. -/
structure hit_record (α : Type) where
  p : vec3 α
  normal : vec3 α
  mat : material α
  t : α
deriving DecidableEq, Repr

/-- `lambertian::near_zero`: true when every component has magnitude below
1e-8. -/
def near_zero (v : vec3 ℚ) : Bool :=
  decide (|v.x| < 1 / 100000000) && decide (|v.y| < 1 / 100000000) &&
    decide (|v.z| < 1 / 100000000)

/-- `lambertian::random_unit_vector`: from the two uniform draws `a`
(azimuth in [0, 2π)) and `z` (in [-1, 1]), the point
(√(1−z²)·cos a, √(1−z²)·sin a, z) on the unit sphere. -/
noncomputable def random_unit_vector (a z : ℝ) : vec3 ℝ :=
  ⟨Real.sqrt (1 - z * z) * Real.cos a, Real.sqrt (1 - z * z) * Real.sin a, z⟩

/-- `material::scatter` dispatch.  The random unit-sphere sample that
`lambertian::scatter` draws is passed in explicitly as `rvec` so that the
embedding is deterministic.  `lambertian`: scatter direction =
normal + sample, with the near-zero degenerate case replaced by the
normal; returns (albedo, ray(hit point, direction)).  `diffuse_light`:
declines. -/
def material.scatter : material ℚ → ray ℚ → hit_record ℚ → vec3 ℚ →
    Option (vec3 ℚ × ray ℚ)
  | .lambertian albedo, _r_in, rec, rvec =>
      let scatter_direction := rec.normal + rvec
      let scatter_direction :=
        if near_zero scatter_direction then rec.normal else scatter_direction
      some (albedo, ⟨rec.p, scatter_direction⟩)
  | .diffuse_light _, _r_in, _rec, _rvec => none

/-- One of the three coordinate axes; an axis-aligned rectangle's fixed
(normal) axis is one of these (xy_rect: z, xz_rect: y, yz_rect: x). -/
inductive axis3 where
  | ax
  | ay
  | az
deriving DecidableEq, Repr

/-- Component of a vector along an axis. -/
def vec3.comp {α} (v : vec3 α) : axis3 → α
  | .ax => v.x
  | .ay => v.y
  | .az => v.z

/-- The two free axes of a rectangle whose fixed axis is given, in the
order their bound intervals are configured. -/
def axis3.others : axis3 → axis3 × axis3
  | .ax => (.ay, .az)
  | .ay => (.ax, .az)
  | .az => (.ax, .ay)

/-- The unit vector along an axis — the rectangle's fixed outward normal. -/
def axis3.unitVec : axis3 → vec3 ℚ
  | .ax => ⟨1, 0, 0⟩
  | .ay => ⟨0, 1, 0⟩
  | .az => ⟨0, 0, 1⟩

/-- Modelled from the spec: an `AxisAlignedRect` (aarect.h is not in src/)
is a fixed axis, the constant coordinate `k` on that axis, closed bound
intervals [a0,a1] and [b0,b1] on the other two axes, and a material. -/
structure aarect where
  axis : axis3
  k : ℚ
  a0 : ℚ
  a1 : ℚ
  b0 : ℚ
  b1 : ℚ
  mat : material ℚ
deriving DecidableEq, Repr

/-- The "small epsilon" below which the directional component along the
rectangle's fixed axis counts as parallel (the spec fixes no value). -/
def rect_eps : ℚ := 1 / 100000000

/-- Modelled from the spec: `AxisAlignedRect.hit` (aarect.h is not in
src/): if |direction[axis]| is below a small epsilon, no-hit; otherwise
t = (k − origin[axis]) / direction[axis]; reject t outside
[t_min, t_max]; project the intersection point onto the two free axes and
reject if outside the bound intervals; otherwise a hit record with t,
point = ray.at(t), the fixed outward unit normal, and the material. -/
def aarect.hit (s : aarect) (r : ray ℚ) (t_min : ℚ) (t_max : WithTop ℚ) :
    Option (hit_record ℚ) :=
  let d := r.dir.comp s.axis
  if |d| < rect_eps then none
  else
    let t := (s.k - r.orig.comp s.axis) / d
    if t < t_min ∨ t_max < (t : WithTop ℚ) then none
    else
      let p := r.at t
      let fa := (s.axis.others).1
      let fb := (s.axis.others).2
      if p.comp fa < s.a0 ∨ s.a1 < p.comp fa ∨
          p.comp fb < s.b0 ∨ s.b1 < p.comp fb then none
      else some ⟨p, s.axis.unitVec, s.mat, t⟩

/-- Modelled from the spec: `Scene.hit` / `hittable_list::hit`
(hittable_list.h is not in src/): linear scan over all surfaces, tracking
the closest qualifying hit so far by shrinking the upper bound of the
search interval to each new closest t; none if no surface qualifies. -/
def scene_hit_aux : List aarect → ray ℚ → ℚ → WithTop ℚ →
    Option (hit_record ℚ)
  | [], _, _, _ => none
  | s :: rest, r, t_min, closest_so_far =>
      match s.hit r t_min closest_so_far with
      | none => scene_hit_aux rest r t_min closest_so_far
      | some rec =>
          match scene_hit_aux rest r t_min (rec.t : WithTop ℚ) with
          | some rec2 => some rec2
          | none => some rec

/-- `Scene.hit` on the full search interval [t_min, t_max]. -/
def scene_hit (scene : List aarect) (r : ray ℚ) (t_min : ℚ)
    (t_max : WithTop ℚ) : Option (hit_record ℚ) :=
  scene_hit_aux scene r t_min t_max

/-- The `hittable` interface the integrator is programmed against: a world
answers `hit(ray, t_min, t_max) -> optional hit_record`. -/
def hittable : Type := ray ℚ → ℚ → WithTop ℚ → Option (hit_record ℚ)

/-- The black radiance value returned at depth exhaustion and for misses. -/
def black : vec3 ℚ := ⟨0, 0, 0⟩

/-- `ray_color` of main.cpp without a recorder attached (the default
`recorder = nullptr`).  `world` is the hittable, `rng n` is the
unit-sphere sample the n-th lambertian scatter draws, `depth` is the C++
`int` bounce budget.  depth ≤ 0: black; no hit on [0.001, ∞): black;
otherwise emitted, plus attenuation times the recursive radiance when the
material scatters. -/
def ray_color (world : hittable) (rng : ℕ → vec3 ℚ) (r : ray ℚ)
    (depth : ℤ) (n : ℕ) : vec3 ℚ :=
  if depth ≤ 0 then black
  else
    match world r (1 / 1000) ⊤ with
    | none => black
    | some rec =>
        let emitted := rec.mat.emitted
        match rec.mat.scatter r rec (rng n) with
        | some (attenuation, scattered) =>
            emitted + attenuation * ray_color world rng scattered (depth - 1) (n + 1)
        | none => emitted
termination_by depth.toNat
decreasing_by
  simp_wf
  omega

/-- `ray_color` computed with an explicit fuel bound on the recursion
depth: fuel 0 yields black, otherwise one unfolding of the body.  Used to
show the recursion depth of `ray_color` is bounded by `depth.toNat`. -/
def ray_color_fuel (world : hittable) (rng : ℕ → vec3 ℚ) :
    ℕ → ray ℚ → ℤ → ℕ → vec3 ℚ
  | 0, _, _, _ => black
  | fuel + 1, r, depth, n =>
      if depth ≤ 0 then black
      else
        match world r (1 / 1000) ⊤ with
        | none => black
        | some rec =>
            let emitted := rec.mat.emitted
            match rec.mat.scatter r rec (rng n) with
            | some (attenuation, scattered) =>
                emitted + attenuation * ray_color_fuel world rng fuel scattered (depth - 1) (n + 1)
            | none => emitted

/-- `PathVertex` of path_visualizer.h. -/
structure PathVertex where
  position : vec3 ℚ
  normal : vec3 ℚ
  contribution : vec3 ℚ
  is_light_source : Bool
deriving DecidableEq, Repr

/-- `LightPath` of path_visualizer.h. -/
structure LightPath where
  vertices : List PathVertex
  final_color : vec3 ℚ
  depth : ℤ
deriving DecidableEq, Repr

/-- `PathRecorder` of path_visualizer.h. -/
structure PathRecorder where
  paths : List LightPath
  current_path : LightPath
  max_paths : ℤ
  recording : Bool
deriving DecidableEq, Repr

/-- `PathRecorder::record_vertex`: when recording, push the vertex on the
current path and bump its depth; otherwise do nothing. -/
def PathRecorder.record_vertex (pr : PathRecorder) (pos normal contrib : vec3 ℚ)
    (is_light : Bool) : PathRecorder :=
  if pr.recording then
    { pr with
        current_path :=
          { pr.current_path with
              vertices := pr.current_path.vertices ++ [⟨pos, normal, contrib, is_light⟩],
              depth := pr.current_path.depth + 1 } }
  else pr

/-- `ray_color` of main.cpp with its optional `PathRecorder*` collaborator
threaded explicitly (`none` embeds a null recorder pointer).  On a
successful scatter the vertex is recorded with the attenuation; on a
declined scatter the hit is recorded as a light vertex when the emitted
color's length_squared exceeds 0.01.  Returns the radiance together with
the recorder state. -/
def ray_color_rec (world : hittable) (rng : ℕ → vec3 ℚ) (r : ray ℚ)
    (depth : ℤ) (recorder : Option PathRecorder) (n : ℕ) :
    vec3 ℚ × Option PathRecorder :=
  if depth ≤ 0 then (black, recorder)
  else
    match world r (1 / 1000) ⊤ with
    | none => (black, recorder)
    | some rec =>
        let emitted := rec.mat.emitted
        match rec.mat.scatter r rec (rng n) with
        | some (attenuation, scattered) =>
            let recorder1 :=
              match recorder with
              | some pr => some (pr.record_vertex rec.p rec.normal attenuation false)
              | none => none
            let result := ray_color_rec world rng scattered (depth - 1) recorder1 (n + 1)
            (emitted + attenuation * result.1, result.2)
        | none =>
            let recorder1 :=
              match recorder with
              | some pr =>
                  if emitted.length_squared > 1 / 100 then
                    some (pr.record_vertex rec.p rec.normal emitted true)
                  else some pr
              | none => none
            (emitted, recorder1)
termination_by depth.toNat
decreasing_by
  simp_wf
  omega


/-- Modelled from the spec: `clamp` (rtweekend.h is not in src/) — clamp a
value to [mn, mx]: below mn gives mn, above mx gives mx. -/
noncomputable def clamp (x mn mx : ℝ) : ℝ :=
  if x < mn then mn else if x > mx then mx else x

/-- C++ `static_cast<int>` on a double: truncation toward zero. -/
noncomputable def cpp_int_cast (x : ℝ) : ℤ :=
  if 0 ≤ x then ⌊x⌋ else -⌊-x⌋

/-- One channel of `write_color` in color.h: scale the accumulated sum by
1/samples_per_pixel, gamma-correct by square root, clamp to [0, 0.999],
scale by 256 and cast to int. -/
noncomputable def write_color_channel (c : ℝ) (samples_per_pixel : ℕ) : ℤ :=
  let scale : ℝ := 1 / samples_per_pixel
  cpp_int_cast (256 * clamp (Real.sqrt (c * scale)) 0 0.999)

/-- The inner render loop of main.cpp: `for (i = 0; i < w; ++i)` emits one
pixel (i, j) per iteration. -/
def row_pixels (w j : ℕ) : List (ℕ × ℕ) :=
  (List.range w).map fun i => (i, j)

/-- The outer render loop of main.cpp: `for (j = h-1; j >= 0; --j)` emits
the rows for j = h−1, h−2, …, 0 in that order. -/
def render_rows (w : ℕ) : ℕ → List (ℕ × ℕ)
  | 0 => []
  | j + 1 => row_pixels w j ++ render_rows w j

/-- The order in which the render loop of main.cpp hands pixels to
`write_color`: rows from j = image_height−1 down to 0, columns i = 0 up to
image_width−1, one entry per `write_color` call. -/
def render_pixels (w h : ℕ) : List (ℕ × ℕ) :=
  render_rows w h

/-- A world whose every query reports a hit on a diffuse light. -/
def w_light : hittable :=
  fun _ _ _ =>
    some ⟨⟨0, 0, 0⟩, ⟨0, 1, 0⟩, material.diffuse_light ⟨15, 15, 15⟩, 1⟩

section theorems

/-- Claim C4: DiffuseLight.scatter always declines; DiffuseLight.emitted
returns the fixed configured emission color regardless of the incoming
ray; Lambertian's emitted (the base-class default) is always black. -/
theorem diffuse_light_spec (c : vec3 ℚ) (r_in : ray ℚ) (rec : hit_record ℚ)
    (rvec : vec3 ℚ) (a : vec3 ℚ) :
    (material.diffuse_light c).scatter r_in rec rvec = none ∧
    (material.diffuse_light c).emitted = c ∧
    (material.lambertian a).emitted = (⟨0, 0, 0⟩ : vec3 ℚ) :=
  ⟨rfl, rfl, rfl⟩

/-- Claim C3: Lambertian.scatter always succeeds with attenuation exactly
the albedo and a scattered ray from the hit point along normal + sample,
with the normal substituted when every component of the sum has magnitude
below 1e-8; and the sample drawn by random_unit_vector lies on the unit
sphere. -/
theorem lambertian_scatter_spec :
    (∀ (albedo : vec3 ℚ) (r_in : ray ℚ) (rec : hit_record ℚ) (rvec : vec3 ℚ),
      (material.lambertian albedo).scatter r_in rec rvec =
        some (albedo, ⟨rec.p,
          if near_zero (rec.normal + rvec) then rec.normal
          else rec.normal + rvec⟩)) ∧
    (∀ a z : ℝ, -1 ≤ z → z ≤ 1 →
      (random_unit_vector a z).length_squared = 1) := by
  constructor
  · intro albedo r_in rec rvec
    rfl
  · intro a z hz1 hz2
    have h1 : (0:ℝ) ≤ 1 - z * z := by nlinarith
    have h2 : Real.sqrt (1 - z * z) * Real.sqrt (1 - z * z) = 1 - z * z :=
      Real.mul_self_sqrt h1
    have h3 : Real.sin a ^ 2 + Real.cos a ^ 2 = 1 := Real.sin_sq_add_cos_sq a
    unfold random_unit_vector vec3.length_squared
    dsimp only
    have h4 : Real.sqrt (1 - z * z) * Real.cos a * (Real.sqrt (1 - z * z) * Real.cos a) +
        Real.sqrt (1 - z * z) * Real.sin a * (Real.sqrt (1 - z * z) * Real.sin a) + z * z =
        Real.sqrt (1 - z * z) * Real.sqrt (1 - z * z) *
          (Real.sin a ^ 2 + Real.cos a ^ 2) + z * z := by ring
    rw [h4, h2, h3]
    ring

/-- Witness for C3 at a = 0, z = 0. -/
theorem lambertian_scatter_spec_witness :
    (random_unit_vector 0 0).length_squared = 1 :=
  lambertian_scatter_spec.2 0 0 (neg_nonpos.mpr zero_le_one) zero_le_one

/-- Claim C1: at positive depth, when the scene reports a hit on
[0.001, ∞), the integrator returns emitted + attenuation times the
recursive radiance of the scattered ray when the material scatters, and
exactly the emitted color when it declines. -/
theorem ray_color_hit_step (world : hittable) (rng : ℕ → vec3 ℚ) (r : ray ℚ)
    (d : ℤ) (n : ℕ) (rec : hit_record ℚ)
    (hd : 0 < d) (hhit : world r (1 / 1000) ⊤ = some rec) :
    (∀ attenuation scattered,
      rec.mat.scatter r rec (rng n) = some (attenuation, scattered) →
      ray_color world rng r d n =
        rec.mat.emitted + attenuation * ray_color world rng scattered (d - 1) (n + 1)) ∧
    (rec.mat.scatter r rec (rng n) = none →
      ray_color world rng r d n = rec.mat.emitted) := by
  have hnot : ¬ d ≤ 0 := not_le.mpr hd
  constructor
  · intro attenuation scattered hs
    rw [ray_color.eq_def]
    simp only [if_neg hnot, hhit, hs]
  · intro hs
    rw [ray_color.eq_def]
    simp only [if_neg hnot, hhit, hs]

/-- Witness for C1: on a world reporting a pure-emitter hit, depth 1
returns the emitted color. -/
theorem ray_color_hit_step_witness :
    ray_color w_light (fun _ => ⟨0, 0, 0⟩) ⟨⟨0, 0, 0⟩, ⟨0, 0, 1⟩⟩ 1 0 =
      (⟨15, 15, 15⟩ : vec3 ℚ) :=
  (ray_color_hit_step w_light (fun _ => ⟨0, 0, 0⟩) ⟨⟨0, 0, 0⟩, ⟨0, 0, 1⟩⟩ 1 0
    ⟨⟨0, 0, 0⟩, ⟨0, 1, 0⟩, material.diffuse_light ⟨15, 15, 15⟩, 1⟩
    (by decide) rfl).2 rfl

/-- Claim C5: the integrator at depth 0 returns black for every world
(so without consulting the scene), and at any positive depth a ray the
scene misses yields black. -/
theorem ray_color_base (world : hittable) (rng : ℕ → vec3 ℚ) (r : ray ℚ)
    (n : ℕ) :
    ray_color world rng r 0 n = black ∧
    (∀ d : ℤ, 0 < d → world r (1 / 1000) ⊤ = none →
      ray_color world rng r d n = black) := by
  constructor
  · rw [ray_color.eq_def]
    simp
  · intro d hd hmiss
    rw [ray_color.eq_def]
    simp only [if_neg (not_le.mpr hd), hmiss]

/-- Witness for C5: a scene that never reports a hit gives black at
depth 5. -/
theorem ray_color_base_witness :
    ray_color (fun _ _ _ => none) (fun _ => black) ⟨black, ⟨0, 0, 1⟩⟩ 5 0 = black :=
  (ray_color_base (fun _ _ _ => none) (fun _ => black) ⟨black, ⟨0, 0, 1⟩⟩ 0).2
    5 (by decide) rfl

/-- The fuel-bounded integrator agrees with the recursive one whenever the
fuel is at least `depth.toNat`: the recursion never needs more than
`depth.toNat` unfoldings. -/
theorem ray_color_fuel_eq (world : hittable) (rng : ℕ → vec3 ℚ) :
    ∀ (fuel : ℕ) (r : ray ℚ) (d : ℤ) (n : ℕ), d.toNat ≤ fuel →
      ray_color_fuel world rng fuel r d n = ray_color world rng r d n := by
  intro fuel
  induction fuel with
  | zero =>
      intro r d n h
      have hd : d ≤ 0 := by omega
      rw [ray_color.eq_def]
      simp [ray_color_fuel, hd]
  | succ fuel ih =>
      intro r d n h
      by_cases hd : d ≤ 0
      · rw [ray_color.eq_def]
        simp [ray_color_fuel, hd]
      · rw [ray_color.eq_def]
        simp only [ray_color_fuel, if_neg hd]
        cases hw : world r (1 / 1000) ⊤ with
        | none => rfl
        | some rec =>
            dsimp only
            cases hs : rec.mat.scatter r rec (rng n) with
            | none => simp only [hs]
            | some pair =>
                obtain ⟨attenuation, scattered⟩ := pair
                simp only [hs]
                rw [ih scattered (d - 1) (n + 1) (by omega)]

/-- Claim C9: the integrator terminates for every integer depth — it
returns black immediately once depth is not strictly positive, and its
recursion depth is bounded: with any fuel of at least `depth.toNat`
unfoldings, the fuel-bounded body computes the same radiance. -/
theorem ray_color_terminates (world : hittable) (rng : ℕ → vec3 ℚ)
    (r : ray ℚ) (d : ℤ) (n : ℕ) (fuel : ℕ) :
    (d ≤ 0 → ray_color world rng r d n = black) ∧
    (d.toNat ≤ fuel →
      ray_color_fuel world rng fuel r d n = ray_color world rng r d n) := by
  constructor
  · intro h
    rw [ray_color.eq_def]
    simp [h]
  · intro h
    exact ray_color_fuel_eq world rng fuel r d n h

/-- Witness for C9 at depth −3 with zero fuel. -/
theorem ray_color_terminates_witness :
    ray_color (fun _ _ _ => none) (fun _ => black) ⟨black, ⟨1, 0, 0⟩⟩ (-3) 0 = black ∧
    ray_color_fuel (fun _ _ _ => none) (fun _ => black) 0 ⟨black, ⟨1, 0, 0⟩⟩ (-3) 0 =
      ray_color (fun _ _ _ => none) (fun _ => black) ⟨black, ⟨1, 0, 0⟩⟩ (-3) 0 :=
  ⟨(ray_color_terminates (fun _ _ _ => none) (fun _ => black) ⟨black, ⟨1, 0, 0⟩⟩ (-3) 0 0).1
      (by decide),
   (ray_color_terminates (fun _ _ _ => none) (fun _ => black) ⟨black, ⟨1, 0, 0⟩⟩ (-3) 0 0).2
      (by decide)⟩

/-- The radiance component of the recorder-threaded integrator never
depends on the recorder state. -/
theorem ray_color_rec_fst (world : hittable) (rng : ℕ → vec3 ℚ) :
    ∀ (k : ℕ) (r : ray ℚ) (d : ℤ) (n : ℕ) (ro : Option PathRecorder),
      d.toNat ≤ k →
      (ray_color_rec world rng r d ro n).1 = ray_color world rng r d n := by
  intro k
  induction k with
  | zero =>
      intro r d n ro h
      have hd : d ≤ 0 := by omega
      rw [ray_color.eq_def, ray_color_rec.eq_def]
      simp [hd]
  | succ k ih =>
      intro r d n ro h
      by_cases hd : d ≤ 0
      · rw [ray_color.eq_def, ray_color_rec.eq_def]
        simp [hd]
      · rw [ray_color.eq_def, ray_color_rec.eq_def]
        simp only [if_neg hd]
        cases hw : world r (1 / 1000) ⊤ with
        | none => rfl
        | some rec =>
            dsimp only
            cases hs : rec.mat.scatter r rec (rng n) with
            | none => simp only [hs]
            | some pair =>
                obtain ⟨attenuation, scattered⟩ := pair
                simp only [hs]
                rw [ih scattered (d - 1) (n + 1) _ (by omega)]

/-- Claim C10: with the same ray, world, depth and random-draw sequence,
the integrator returns the same radiance whether the recorder is detached,
attached, or in any state — the recorder is a pure side channel. -/
theorem recorder_independent (world : hittable) (rng : ℕ → vec3 ℚ)
    (r : ray ℚ) (d : ℤ) (n : ℕ) (ro : Option PathRecorder)
    (pr : PathRecorder) :
    (ray_color_rec world rng r d ro n).1 = ray_color world rng r d n ∧
    (ray_color_rec world rng r d (some pr) n).1 =
      (ray_color_rec world rng r d none n).1 := by
  refine ⟨ray_color_rec_fst world rng d.toNat r d n ro le_rfl, ?_⟩
  rw [ray_color_rec_fst world rng d.toNat r d n (some pr) le_rfl,
    ray_color_rec_fst world rng d.toNat r d n none le_rfl]

/-- Claim C6: the rectangle intersection reports no-hit when the
directional component along the fixed axis has magnitude below the small
epsilon (so the division is never the source of a propagated value), and
likewise rejects a plane-intersection parameter outside [t_min, t_max]
and an intersection point outside the configured bound intervals. -/
theorem aarect_hit_reject (s : aarect) (r : ray ℚ) (t_min : ℚ)
    (t_max : WithTop ℚ) :
    (|r.dir.comp s.axis| < rect_eps → s.hit r t_min t_max = none) ∧
    (((s.k - r.orig.comp s.axis) / r.dir.comp s.axis < t_min ∨
        t_max < (((s.k - r.orig.comp s.axis) / r.dir.comp s.axis : ℚ) : WithTop ℚ)) →
      s.hit r t_min t_max = none) ∧
    (((r.at ((s.k - r.orig.comp s.axis) / r.dir.comp s.axis)).comp (s.axis.others).1 < s.a0 ∨
        s.a1 < (r.at ((s.k - r.orig.comp s.axis) / r.dir.comp s.axis)).comp (s.axis.others).1 ∨
        (r.at ((s.k - r.orig.comp s.axis) / r.dir.comp s.axis)).comp (s.axis.others).2 < s.b0 ∨
        s.b1 < (r.at ((s.k - r.orig.comp s.axis) / r.dir.comp s.axis)).comp (s.axis.others).2) →
      s.hit r t_min t_max = none) := by
  refine ⟨?_, ?_, ?_⟩
  · intro h
    simp only [aarect.hit]
    rw [if_pos h]
  · intro h
    simp only [aarect.hit]
    split_ifs <;> rfl
  · intro h
    simp only [aarect.hit]
    split_ifs <;> rfl

/-- Witness for C6: a ray parallel to a z = 5 rectangle is a miss. -/
theorem aarect_hit_reject_witness :
    (aarect.mk axis3.az 5 0 1 0 1 (material.lambertian ⟨1, 1, 1⟩)).hit
      ⟨⟨0, 0, 0⟩, ⟨1, 0, 0⟩⟩ 0 ⊤ = none :=
  (aarect_hit_reject (aarect.mk axis3.az 5 0 1 0 1 (material.lambertian ⟨1, 1, 1⟩))
    ⟨⟨0, 0, 0⟩, ⟨1, 0, 0⟩⟩ 0 ⊤).1 (by simp [vec3.comp, rect_eps])

/-- The render loop emits w·(number of rows) pixels. -/
theorem render_rows_length (w : ℕ) : ∀ h, (render_rows w h).length = w * h := by
  intro h
  induction h with
  | zero => rfl
  | succ h ih =>
      simp only [render_rows, List.length_append, ih, row_pixels,
        List.length_map, List.length_range]
      ring

/-- The k-th pixel emitted by the render loop over rows h−1, …, 0. -/
theorem render_rows_get (w : ℕ) :
    ∀ h k, k < w * h →
      (render_rows w h)[k]? = some (k % w, h - 1 - k / w) := by
  intro h
  induction h with
  | zero =>
      intro k hk
      simp at hk
  | succ h ih =>
      intro k hk
      have hrow : (row_pixels w h).length = w := by
        simp [row_pixels]
      by_cases hkw : k < w
      · rw [render_rows, List.getElem?_append_left (by rw [hrow]; exact hkw)]
        rw [row_pixels, List.getElem?_map, List.getElem?_range hkw]
        simp [Nat.mod_eq_of_lt hkw, Nat.div_eq_of_lt hkw]
      · push_neg at hkw
        have hw0 : 0 < w := by
          rcases Nat.eq_zero_or_pos w with h0 | h0
          · subst h0
            simp at hk
          · exact h0
        rw [render_rows, List.getElem?_append_right (by rw [hrow]; exact hkw), hrow]
        have hk2 : k - w < w * h := by
          have e : w * (h + 1) = w * h + w := by ring
          omega
        rw [ih (k - w) hk2]
        have e1 : k % w = (k - w) % w := Nat.mod_eq_sub_mod hkw
        have e2 : k / w = (k - w) / w + 1 := Nat.div_eq_sub_div hw0 hkw
        rw [e1, e2]
        have e3 : h + 1 - 1 - ((k - w) / w + 1) = h - 1 - (k - w) / w := by omega
        rw [e3]

/-- Claim C8: the pixel stream of the render loop has exactly one entry
per pixel, ordered rows top (j = height−1) to bottom (j = 0) and columns
left (i = 0) to right (i = width−1): the k-th `write_color` call receives
pixel (k mod width, height−1−k/width). -/
theorem render_order_spec (w h : ℕ) :
    (render_pixels w h).length = w * h ∧
    (∀ k, k < w * h →
      (render_pixels w h)[k]? = some (k % w, h - 1 - k / w)) :=
  ⟨render_rows_length w h, fun k hk => render_rows_get w h k hk⟩

/-- Witness for C8 on a 2×2 image: four pixels, the first being the
top-left pixel (0, 1). -/
theorem render_order_spec_witness :
    (render_pixels 2 2).length = 2 * 2 ∧
    (render_pixels 2 2)[0]? = some (0, 1) :=
  ⟨(render_order_spec 2 2).1, (render_order_spec 2 2).2 0 (by decide)⟩

/-- The interval upper bound only filters the rectangle hit: the hit on
[t_min, t_max] is the hit on [t_min, ∞) kept exactly when its t is at
most t_max. -/
theorem aarect.hit_eq_top (s : aarect) (r : ray ℚ) (t_min : ℚ)
    (t_max : WithTop ℚ) :
    s.hit r t_min t_max = (s.hit r t_min ⊤).bind
      (fun rec => if (rec.t : WithTop ℚ) ≤ t_max then some rec else none) := by
  simp only [aarect.hit]
  by_cases h1 : |r.dir.comp s.axis| < rect_eps
  · simp [h1]
  · simp only [if_neg h1]
    generalize (s.k - r.orig.comp s.axis) / r.dir.comp s.axis = T
    by_cases h2 : T < t_min
    · have e1 : (T < t_min ∨ t_max < (T : WithTop ℚ)) := Or.inl h2
      have e2 : (T < t_min ∨ (⊤ : WithTop ℚ) < (T : WithTop ℚ)) := Or.inl h2
      rw [if_pos e1, if_pos e2]
      rfl
    · have e2 : ¬ (T < t_min ∨ (⊤ : WithTop ℚ) < (T : WithTop ℚ)) := by
        push_neg
        exact ⟨not_lt.mp h2, le_top⟩
      rw [if_neg e2]
      by_cases h3 : (r.at T).comp (s.axis.others).1 < s.a0 ∨
          s.a1 < (r.at T).comp (s.axis.others).1 ∨
          (r.at T).comp (s.axis.others).2 < s.b0 ∨
          s.b1 < (r.at T).comp (s.axis.others).2
      · simp only [if_pos h3, Option.none_bind]
        exact ite_self none
      · simp only [if_neg h3, Option.some_bind]
        dsimp only
        rcases le_or_lt ((T : WithTop ℚ)) t_max with h4 | h4
        · rw [if_neg (by push_neg; exact ⟨not_lt.mp h2, h4⟩), if_pos h4]
        · rw [if_pos (Or.inr h4), if_neg (not_le.mpr h4)]

theorem aarect.hit_some_iff (s : aarect) (r : ray ℚ) (t_min : ℚ)
    (t_max : WithTop ℚ) (rec : hit_record ℚ) :
    s.hit r t_min t_max = some rec ↔
      s.hit r t_min ⊤ = some rec ∧ (rec.t : WithTop ℚ) ≤ t_max := by
  rw [aarect.hit_eq_top]
  cases hb : s.hit r t_min ⊤ with
  | none => simp
  | some rec1 =>
      simp only [Option.some_bind]
      by_cases h : (rec1.t : WithTop ℚ) ≤ t_max
      · simp only [if_pos h]
        constructor
        · intro he
          cases he
          exact ⟨rfl, h⟩
        · intro ⟨he, _⟩
          cases he
          rfl
      · simp only [if_neg h]
        constructor
        · intro he
          cases he
        · intro ⟨he, ht⟩
          cases he
          exact absurd ht h

theorem aarect.hit_t_le (s : aarect) (r : ray ℚ) (t_min : ℚ)
    (t_max : WithTop ℚ) (rec : hit_record ℚ)
    (h : s.hit r t_min t_max = some rec) : (rec.t : WithTop ℚ) ≤ t_max :=
  ((aarect.hit_some_iff s r t_min t_max rec).1 h).2

theorem aarect.hit_mono (s : aarect) (r : ray ℚ) (t_min : ℚ)
    (t1 t2 : WithTop ℚ) (rec : hit_record ℚ)
    (h : s.hit r t_min t1 = some rec) (hle : (rec.t : WithTop ℚ) ≤ t2) :
    s.hit r t_min t2 = some rec :=
  (aarect.hit_some_iff s r t_min t2 rec).2
    ⟨((aarect.hit_some_iff s r t_min t1 rec).1 h).1, hle⟩

set_option maxHeartbeats 1000000 in
/-- Unfolding of the scan when the head surface misses. -/
theorem scene_hit_aux_cons_none {s : aarect} {rest : List aarect} {r : ray ℚ}
    {t_min : ℚ} {c : WithTop ℚ} (hs : s.hit r t_min c = none) :
    scene_hit_aux (s :: rest) r t_min c = scene_hit_aux rest r t_min c := by
  simp only [scene_hit_aux, hs]

set_option maxHeartbeats 1000000 in
/-- Unfolding of the scan when the head surface hits: the tail is searched
with the shrunk upper bound, and the head's hit is kept when the tail
finds nothing closer. -/
theorem scene_hit_aux_cons_some {s : aarect} {rest : List aarect} {r : ray ℚ}
    {t_min : ℚ} {c : WithTop ℚ} {rec : hit_record ℚ}
    (hs : s.hit r t_min c = some rec) :
    scene_hit_aux (s :: rest) r t_min c =
      some ((scene_hit_aux rest r t_min (rec.t : WithTop ℚ)).getD rec) := by
  simp only [scene_hit_aux, hs]
  cases scene_hit_aux rest r t_min (rec.t : WithTop ℚ) with
  | none => rfl
  | some rec2 => rfl

theorem scene_hit_aux_t_le (r : ray ℚ) (t_min : ℚ) :
    ∀ (l : List aarect) (closest : WithTop ℚ) (rec : hit_record ℚ),
      scene_hit_aux l r t_min closest = some rec →
      (rec.t : WithTop ℚ) ≤ closest := by
  intro l
  induction l with
  | nil =>
      intro closest rec h
      exact Option.noConfusion h
  | cons s rest ih =>
      intro closest rec h
      cases hs : s.hit r t_min closest with
      | none =>
          rw [scene_hit_aux_cons_none hs] at h
          exact ih closest rec h
      | some rec1 =>
          rw [scene_hit_aux_cons_some hs] at h
          cases ha : scene_hit_aux rest r t_min (rec1.t : WithTop ℚ) with
          | none =>
              rw [ha, Option.getD_none] at h
              have e : rec1 = rec := Option.some.inj h
              rw [← e]
              exact aarect.hit_t_le s r t_min closest rec1 hs
          | some rec2 =>
              rw [ha, Option.getD_some] at h
              have e : rec2 = rec := Option.some.inj h
              rw [← e]
              exact le_trans (ih _ _ ha) (aarect.hit_t_le s r t_min closest rec1 hs)

theorem scene_hit_aux_none (r : ray ℚ) (t_min : ℚ) :
    ∀ (l : List aarect) (closest : WithTop ℚ),
      scene_hit_aux l r t_min closest = none →
      ∀ s ∈ l, s.hit r t_min closest = none := by
  intro l
  induction l with
  | nil =>
      intro closest _ s hmem
      exact absurd hmem (List.not_mem_nil s)
  | cons s rest ih =>
      intro closest h s' hmem
      cases hs : s.hit r t_min closest with
      | none =>
          rw [scene_hit_aux_cons_none hs] at h
          rcases List.mem_cons.mp hmem with rfl | hr
          · exact hs
          · exact ih closest h s' hr
      | some rec1 =>
          rw [scene_hit_aux_cons_some hs] at h
          exact Option.noConfusion h

theorem scene_hit_aux_of_all_none (r : ray ℚ) (t_min : ℚ) :
    ∀ (l : List aarect) (closest : WithTop ℚ),
      (∀ s ∈ l, s.hit r t_min closest = none) →
      scene_hit_aux l r t_min closest = none := by
  intro l
  induction l with
  | nil =>
      intro closest _
      rfl
  | cons s rest ih =>
      intro closest h
      rw [scene_hit_aux_cons_none (h s (List.mem_cons_self s rest))]
      exact ih closest fun s' hr => h s' (List.mem_cons_of_mem s hr)

theorem scene_hit_aux_mem (r : ray ℚ) (t_min : ℚ) :
    ∀ (l : List aarect) (closest : WithTop ℚ) (rec : hit_record ℚ),
      scene_hit_aux l r t_min closest = some rec →
      ∃ s ∈ l, s.hit r t_min closest = some rec := by
  intro l
  induction l with
  | nil =>
      intro closest rec h
      exact Option.noConfusion h
  | cons s rest ih =>
      intro closest rec h
      cases hs : s.hit r t_min closest with
      | none =>
          rw [scene_hit_aux_cons_none hs] at h
          obtain ⟨s', hr, hs'⟩ := ih closest rec h
          exact ⟨s', List.mem_cons_of_mem s hr, hs'⟩
      | some rec1 =>
          rw [scene_hit_aux_cons_some hs] at h
          cases ha : scene_hit_aux rest r t_min (rec1.t : WithTop ℚ) with
          | none =>
              rw [ha, Option.getD_none] at h
              have e : rec1 = rec := Option.some.inj h
              rw [← e]
              exact ⟨s, List.mem_cons_self s rest, hs⟩
          | some rec2 =>
              rw [ha, Option.getD_some] at h
              have e : rec2 = rec := Option.some.inj h
              rw [← e]
              obtain ⟨s', hr, hs'⟩ := ih _ rec2 ha
              refine ⟨s', List.mem_cons_of_mem s hr, ?_⟩
              exact aarect.hit_mono s' r t_min _ closest rec2 hs'
                (le_trans (scene_hit_aux_t_le r t_min rest _ rec2 ha)
                  (aarect.hit_t_le s r t_min closest rec1 hs))

theorem scene_hit_aux_min (r : ray ℚ) (t_min : ℚ) :
    ∀ (l : List aarect) (closest : WithTop ℚ) (rec : hit_record ℚ),
      scene_hit_aux l r t_min closest = some rec →
      ∀ s ∈ l, ∀ rec3, s.hit r t_min closest = some rec3 → rec.t ≤ rec3.t := by
  intro l
  induction l with
  | nil =>
      intro closest rec h
      exact Option.noConfusion h
  | cons s rest ih =>
      intro closest rec h s' hmem rec3 hs3
      cases hs : s.hit r t_min closest with
      | none =>
          rw [scene_hit_aux_cons_none hs] at h
          rcases List.mem_cons.mp hmem with rfl | hr
          · rw [hs] at hs3
            exact Option.noConfusion hs3
          · exact ih closest rec h s' hr rec3 hs3
      | some rec1 =>
          rw [scene_hit_aux_cons_some hs] at h
          cases ha : scene_hit_aux rest r t_min (rec1.t : WithTop ℚ) with
          | none =>
              rw [ha, Option.getD_none] at h
              have e : rec1 = rec := Option.some.inj h
              rw [← e]
              rcases List.mem_cons.mp hmem with rfl | hr
              · rw [hs] at hs3
                rw [Option.some.inj hs3]
              · by_cases hq : (rec3.t : WithTop ℚ) ≤ (rec1.t : WithTop ℚ)
                · have hmono := aarect.hit_mono s' r t_min closest _ rec3 hs3 hq
                  rw [scene_hit_aux_none r t_min rest _ ha s' hr] at hmono
                  exact Option.noConfusion hmono
                · exact le_of_lt (WithTop.coe_lt_coe.mp (not_le.mp hq))
          | some rec2 =>
              rw [ha, Option.getD_some] at h
              have e : rec2 = rec := Option.some.inj h
              rw [← e]
              have h2 : rec2.t ≤ rec1.t :=
                WithTop.coe_le_coe.mp (scene_hit_aux_t_le r t_min rest _ rec2 ha)
              rcases List.mem_cons.mp hmem with rfl | hr
              · rw [hs] at hs3
                rw [← Option.some.inj hs3]
                exact h2
              · by_cases hq : (rec3.t : WithTop ℚ) ≤ (rec1.t : WithTop ℚ)
                · have hmono := aarect.hit_mono s' r t_min closest _ rec3 hs3 hq
                  exact ih _ rec2 ha s' hr rec3 hmono
                · exact le_trans h2 (le_of_lt (WithTop.coe_lt_coe.mp (not_le.mp hq)))

/-- Claim C2: for t_min < t_max the scene aggregate's hit is the
aggregate-nearest law: none exactly when no member surface qualifies on
[t_min, t_max] (in particular the empty scene is a universal miss), and
any reported hit is one of the member hits and has the minimum ray
parameter t among them. -/
theorem scene_hit_nearest (l : List aarect) (r : ray ℚ) (t_min : ℚ)
    (t_max : WithTop ℚ) (hlt : (t_min : WithTop ℚ) < t_max) :
    (scene_hit l r t_min t_max = none ↔
      l.filterMap (fun s => s.hit r t_min t_max) = []) ∧
    (∀ rec, scene_hit l r t_min t_max = some rec →
      rec ∈ l.filterMap (fun s => s.hit r t_min t_max) ∧
      ∀ rec2 ∈ l.filterMap (fun s => s.hit r t_min t_max), rec.t ≤ rec2.t) ∧
    scene_hit ([] : List aarect) r t_min t_max = none := by
  refine ⟨⟨?_, ?_⟩, ?_, rfl⟩
  · intro h
    rw [List.filterMap_eq_nil_iff]
    exact scene_hit_aux_none r t_min l t_max h
  · intro h
    exact scene_hit_aux_of_all_none r t_min l t_max (List.filterMap_eq_nil_iff.mp h)
  · intro rec h
    constructor
    · rw [List.mem_filterMap]
      obtain ⟨s, hmem, hs⟩ := scene_hit_aux_mem r t_min l t_max rec h
      exact ⟨s, hmem, hs⟩
    · intro rec2 hmem2
      rw [List.mem_filterMap] at hmem2
      obtain ⟨s, hmem, hs⟩ := hmem2
      exact scene_hit_aux_min r t_min l t_max rec h s hmem rec2 hs

/-- Witness for C2: the empty scene reports no hit on [0, ∞). -/
theorem scene_hit_nearest_witness :
    scene_hit ([] : List aarect) ⟨⟨0, 0, 0⟩, ⟨0, 0, 1⟩⟩ 0 ⊤ = none :=
  (scene_hit_nearest [] ⟨⟨0, 0, 0⟩, ⟨0, 0, 1⟩⟩ 0 ⊤ (by decide)).2.2

theorem vadd_def (a b : vec3 ℚ) : a + b = ⟨a.x + b.x, a.y + b.y, a.z + b.z⟩ := rfl

theorem vsmul_def (s : ℚ) (v : vec3 ℚ) : s • v = ⟨s * v.x, s * v.y, s * v.z⟩ := rfl

/-- Validation of the spec-modelled rectangle intersection on the spec's
Scenario C: the x = 2 rectangle with y- and z-bounds [0, 10], probed by
the ray from (-8, 5, 5) along (1, 0, 0), is hit at t = 10 at point
(2, 5, 5) with the x-axis normal and the rectangle's material. -/
theorem aarect_hit_scenario_c :
    (aarect.mk .ax 2 0 10 0 10 (material.lambertian ⟨1, 1, 1⟩)).hit
      ⟨⟨-8, 5, 5⟩, ⟨1, 0, 0⟩⟩ (1 / 1000) ⊤ =
    some ⟨⟨2, 5, 5⟩, ⟨1, 0, 0⟩, material.lambertian ⟨1, 1, 1⟩, 10⟩ := by
  norm_num [aarect.hit, vec3.comp, axis3.others, axis3.unitVec, ray.at,
    rect_eps, vadd_def, vsmul_def]


/-- Claim C7: for a positive sample count the emitted channel value is
floor(256 · clamp(√(channel_sum / N), 0, 0.999)), an integer between 0
and 255. -/
theorem write_color_channel_spec (c : ℝ) (n : ℕ) (hn : 0 < n) (hc : 0 ≤ c) :
    write_color_channel c n = ⌊256 * clamp (Real.sqrt (c / n)) 0 0.999⌋ ∧
    0 ≤ write_color_channel c n ∧ write_color_channel c n ≤ 255 := by
  have hdiv : c * ((1 : ℝ) / n) = c / n := by ring
  have hcl_lo : 0 ≤ clamp (Real.sqrt (c / n)) 0 0.999 := by
    unfold clamp
    split_ifs with h1 h2
    · exact le_refl 0
    · norm_num
    · exact not_lt.mp h1
  have hcl_hi : clamp (Real.sqrt (c / n)) 0 0.999 ≤ 0.999 := by
    unfold clamp
    split_ifs with h1 h2
    · norm_num
    · exact le_refl _
    · exact not_lt.mp h2
  have hval_lo : (0 : ℝ) ≤ 256 * clamp (Real.sqrt (c / n)) 0 0.999 :=
    mul_nonneg (by norm_num) hcl_lo
  have e1 : write_color_channel c n = ⌊256 * clamp (Real.sqrt (c / n)) 0 0.999⌋ := by
    simp only [write_color_channel, cpp_int_cast]
    rw [hdiv, if_pos hval_lo]
  refine ⟨e1, ?_, ?_⟩
  · rw [e1]
    exact Int.le_floor.mpr (by exact_mod_cast hval_lo)
  · rw [e1]
    have hlt : 256 * clamp (Real.sqrt (c / n)) 0 0.999 < 256 := by linarith
    have hfl : ⌊256 * clamp (Real.sqrt (c / n)) 0 0.999⌋ < (256 : ℤ) :=
      Int.floor_lt.mpr (by push_cast; linarith)
    omega

/-- Witness for C7 at channel sum 0 with one sample. -/
theorem write_color_channel_spec_witness :
    write_color_channel 0 1 = ⌊(256 : ℝ) * clamp (Real.sqrt (0 / (1 : ℕ))) 0 0.999⌋ ∧
    0 ≤ write_color_channel 0 1 ∧ write_color_channel 0 1 ≤ 255 :=
  write_color_channel_spec 0 1 (by decide) (le_refl 0)


end theorems
